import Mathlib

/-!
Verification of the sportsreference repository (NBA `teams.py`, NHL
`schedule.py`) against its natural-language specification.

The Python source is shallowly embedded: raw HTML table rows and cell
texts are strings, `None` is `Option.none`, Python exceptions
(`ValueError`, `TypeError`, `AttributeError`) are `Option.none` or an
explicit error constructor, and Python's arbitrary-precision `int` is
`Int`/`Nat`.  `float` on the decimal cell texts handled here is modelled
exactly by `Rat`.  The field-extraction helper `utils._parse_field` and
the `PARSING_SCHEME` table live outside the excerpted sources, so the
extraction function is a parameter (`pf`) wherever it is needed.
-/

/-! ## String helpers modelling the Python string fragment used by the code -/

/-- Accumulating decimal value of a digit string, `digitsVal cs acc`
folds `acc ↦ 10*acc + digit` over `cs`; on an all-digit list started at
`0` it is the numeral's value (what Python's `int` computes). -/
def digitsVal : List Char → Nat → Nat
  | [], acc => acc
  | c :: cs, acc => digitsVal cs (10 * acc + (c.toNat - 48))

/-- Python `str.split(sep)` for a one-character separator, on the
character list: `"" ↦ [""]`, `".5" ↦ ["", "5"]`, etc. -/
def splitOnChar (sep : Char) : List Char → List (List Char)
  | [] => [[]]
  | c :: cs =>
    if c = sep then [] :: splitOnChar sep cs
    else
      match splitOnChar sep cs with
      | [] => [[c]]
      | g :: gs => (c :: g) :: gs

/-- Python `int(s)` on the fragment the cell texts live in: an optional
sign followed by one or more ASCII digits; anything else (empty string,
commas, letters) raises `ValueError`, modelled as `none`. -/
def pyInt (s : String) : Option Int :=
  match s.data with
  | '-' :: rest =>
    if rest ≠ [] ∧ rest.all Char.isDigit then some (-(digitsVal rest 0 : Int)) else none
  | '+' :: rest =>
    if rest ≠ [] ∧ rest.all Char.isDigit then some ((digitsVal rest 0 : Int)) else none
  | cs =>
    if cs ≠ [] ∧ cs.all Char.isDigit then some ((digitsVal cs 0 : Int)) else none

/-- Python `int(v)` where `v` may be `None` (the unparsed default):
`int(None)` raises `TypeError`, modelled as `none`. -/
def pyIntO (o : Option String) : Option Int :=
  o.bind pyInt

/-- Python `float(s)` on the decimal fragment the cell texts live in: an
optional sign, then an integer part and/or a fractional part separated by
`'.'`, with at least one digit overall.  The value is exact, as a
rational. -/
def pyFloat (s : String) : Option Rat :=
  let (sgn, m) : Rat × List Char :=
    match s.data with
    | '-' :: rest => (-1, rest)
    | '+' :: rest => (1, rest)
    | cs => (1, cs)
  match splitOnChar '.' m with
  | [ip] =>
    if ip ≠ [] ∧ ip.all Char.isDigit then some (sgn * (digitsVal ip 0 : Rat)) else none
  | [ip, fp] =>
    if (ip ≠ [] ∨ fp ≠ []) ∧ ip.all Char.isDigit ∧ fp.all Char.isDigit then
      some (sgn * ((digitsVal ip 0 : Rat) + (digitsVal fp 0 : Rat) / (10 : Rat) ^ fp.length))
    else none
  | _ => none

/-- Python `float(v)` with `v` possibly `None` (`TypeError`, i.e. `none`). -/
def pyFloatO (o : Option String) : Option Rat :=
  o.bind pyFloat

/-- Python `str.lower()` restricted to ASCII, which is all the code
compares against (`'w'`, `'l'`, `'ot'`, `'so'`).  `Char.toLower` is
exactly the ASCII case map. -/
def pyLower (s : String) : String :=
  ⟨s.data.map Char.toLower⟩

/-- Python `str.upper()` restricted to ASCII (team abbreviations). -/
def pyUpper (s : String) : String :=
  ⟨s.data.map Char.toUpper⟩

/-- Python `'%s' % v`: `None` prints as `"None"`. -/
def pyStr (o : Option String) : String :=
  o.getD "None"

/-- Python `str.replace(',', '')`: drop every comma. -/
def removeCommas (s : String) : String :=
  ⟨s.data.filter (fun c => c ≠ ',')⟩

/-- The maximal runs of consecutive ASCII digits in a character list, in
order: the matches of `re.findall('\d+', s)`. -/
def digitRuns : List Char → List (List Char)
  | [] => []
  | c :: cs =>
    if c.isDigit then
      match digitRuns cs with
      | [] => [[c]]
      | r :: rs =>
        match cs with
        | d :: _ => if d.isDigit then (c :: r) :: rs else [c] :: r :: rs
        | [] => [[c]]
    else digitRuns cs

/-- `re.findall('\d+', s)` followed by `int` on each match: the numbers
embedded in `s`, in order of appearance. -/
def findNumbers (s : String) : List Nat :=
  (digitRuns s.data).map (fun r => digitsVal r 0)

/-! ## Shared constants

The outcome and location constants are imported by `nhl/schedule.py` from
`sportsreference.constants` and `sportsreference.nhl.constants`, modules
not among the excerpted sources. -/

/-- Modelled from the spec: the game-outcome constants `WIN`, `LOSS` and
`OVERTIME_LOSS` imported from the constants modules (absent from the
excerpted sources); only their distinctness matters here. -/
inductive GameResult where
  | WIN
  | LOSS
  | OVERTIME_LOSS
deriving DecidableEq, Repr

/-- Modelled from the spec: the integer constant `SHOOTOUT` imported from
`sportsreference.nhl.constants` (absent from the excerpted sources),
returned by the `overtime` accessor for a shootout; a fixed value
distinct from `0` (no overtime) and `1` (one overtime). -/
def SHOOTOUT : Nat := 2

namespace NHL

/-! ## `sportsreference/nhl/schedule.py` -/

/-- The result of Python `datetime.strptime(s, '%Y-%m-%d %I:%M %p')`:
year, month, day and the 24-hour clock time. -/
structure PyDateTime where
  year : Nat
  month : Nat
  day : Nat
  hour : Nat
  minute : Nat
deriving DecidableEq, Repr

/-- Modelled fragment of the standard library's
`datetime.strptime(s, '%Y-%m-%d %I:%M %p')` (external collaborator):
numeric fields are digit runs checked against their calendar ranges,
`%p` is `AM`/`PM`, and failure (`ValueError`) is `none`. -/
def strptimeYmdIMp (s : String) : Option PyDateTime :=
  match splitOnChar ' ' s.data with
  | [d, hm, ap] =>
    match splitOnChar '-' d, splitOnChar ':' hm with
    | [y, mo, da], [h, mi] =>
      if y ≠ [] ∧ y.all Char.isDigit ∧
         mo ≠ [] ∧ mo.all Char.isDigit ∧
         da ≠ [] ∧ da.all Char.isDigit ∧
         h ≠ [] ∧ h.all Char.isDigit ∧
         mi ≠ [] ∧ mi.all Char.isDigit then
        let yv := digitsVal y 0
        let mov := digitsVal mo 0
        let dav := digitsVal da 0
        let hv := digitsVal h 0
        let miv := digitsVal mi 0
        if 1 ≤ mov ∧ mov ≤ 12 ∧ 1 ≤ dav ∧ dav ≤ 31 ∧
           1 ≤ hv ∧ hv ≤ 12 ∧ miv ≤ 59 then
          if ap = ['A', 'M'] then
            some ⟨yv, mov, dav, if hv = 12 then 0 else hv, miv⟩
          else if ap = ['P', 'M'] then
            some ⟨yv, mov, dav, if hv = 12 then 12 else hv + 12, miv⟩
          else none
        else none
      else none
    | _, _ => none
  | _ => none

/-- One parsed game row of `nhl/schedule.py`.  Every raw attribute of
`Game.__init__` is kept; each holds the text `utils.parse_field` (or the
special abbreviation/boxscore extraction) produced for it, or `none`
(Python `None`) when the field was absent. -/
structure Game where
  game_ : Option String
  date_ : Option String
  time_ : Option String
  boxscore_ : Option String
  location_ : Option String
  opponent_abbr_ : Option String
  opponent_name_ : Option String
  goals_scored_ : Option String
  goals_allowed_ : Option String
  result_ : Option String
  overtime_ : Option String
  wins_ : Option String
  losses_ : Option String
  overtime_losses_ : Option String
  streak_ : Option String
  shots_on_goal_ : Option String
  penalties_in_minutes_ : Option String
  power_play_goals_ : Option String
  power_play_opportunities_ : Option String
  short_handed_goals_ : Option String
  attendance_ : Option String
  length_of_game_ : Option String
deriving DecidableEq, Repr

/-- `Game.goals_scored`: `int(self._goals_scored)`. -/
def Game.goals_scored (g : Game) : Option Int :=
  pyIntO g.goals_scored_

/-- `Game.goals_allowed`: `int(self._goals_allowed)`. -/
def Game.goals_allowed (g : Game) : Option Int :=
  pyIntO g.goals_allowed_

/-- The body of `Game.overtime` on the raw cell text: `'ot'` (lowered)
is one overtime, `'so'` (lowered) is `SHOOTOUT`, the empty string is
`0`, otherwise the first number `re.findall('\d+', ...)` yields, else
`0`. -/
def overtimeOfText (s : String) : Nat :=
  if pyLower s = "ot" then 1
  else if pyLower s = "so" then SHOOTOUT
  else if s = "" then 0
  else
    match findNumbers s with
    | n :: _ => n
    | [] => 0

/-- `Game.overtime`: the overtime count derived from the raw text; a
`None` raw value raises (`None.lower()` is an `AttributeError`). -/
def Game.overtime (g : Game) : Option Nat :=
  g.overtime_.map overtimeOfText

/-- `Game.result`: `'w'` is `WIN`; `'l'` with nonzero `overtime` is
`OVERTIME_LOSS`; anything else falls through to `LOSS`.  Failures of the
raw accesses (`None.lower()`, and `overtime` on `None`, reached only in
the `'l'` branch as in the Python short-circuit) are `none`. -/
def Game.result (g : Game) : Option GameResult :=
  match g.result_ with
  | none => none
  | some r =>
    if pyLower r = "w" then some GameResult.WIN
    else if pyLower r = "l" then
      match g.overtime with
      | none => none
      | some ot => if ot ≠ 0 then some GameResult.OVERTIME_LOSS else some GameResult.LOSS
    else some GameResult.LOSS

/-- `Game.streak`: returns `self._streak` as is. -/
def Game.streak (g : Game) : Option String :=
  g.streak_

/-- `Game.attendance`: `int(self._attendance.replace(',', ''))`; a
`None` raw value raises (`AttributeError`), modelled as `none`. -/
def Game.attendance (g : Game) : Option Int :=
  match g.attendance_ with
  | none => none
  | some s => pyInt (removeCommas s)

/-- `Game.datetime`: `strptime('%s %s' % (self._date, self._time),
'%Y-%m-%d %I:%M %p')` (Python's `%s` renders `None` as `"None"`). -/
def Game.datetime (g : Game) : Option PyDateTime :=
  strptimeYmdIMp (pyStr g.date_ ++ " " ++ pyStr g.time_)

/-- The two `ValueError`s `Schedule.__call__` can raise: `strptime` on a
malformed date/time, or the explicit "No games found for requested
date". -/
inductive CallErr where
  | strptimeError
  | notFound
deriving DecidableEq, Repr

/-- `Schedule.__call__(date)` over the ordered game list: return the
first game whose `datetime` has the same year, month and day as the
passed date; raise when none matches. -/
def scheduleCall : List Game → PyDateTime → Except CallErr Game
  | [], _ => .error .notFound
  | g :: gs, d =>
    match g.datetime with
    | none => .error .strptimeError
    | some gd =>
      if gd.year = d.year ∧ gd.month = d.month ∧ gd.day = d.day then .ok g
      else scheduleCall gs d

end NHL

namespace NBA

/-! ## `sportsreference/nba/teams.py` -/

/-- One team-season record of `nba/teams.py`.  `rank_` is the rank
passed to `Team.__init__`; every other attribute of `Team.__init__`
holds the text `utils._parse_field(PARSING_SCHEME, team_data, name)`
produced for it (`none` for Python `None`). -/
structure Team where
  year_ : Option String
  rank_ : Nat
  abbreviation_ : Option String
  name_ : Option String
  games_played_ : Option String
  minutes_played_ : Option String
  field_goals_ : Option String
  field_goal_attempts_ : Option String
  field_goal_percentage_ : Option String
  three_point_field_goals_ : Option String
  three_point_field_goal_attempts_ : Option String
  three_point_field_goal_percentage_ : Option String
  two_point_field_goals_ : Option String
  two_point_field_goal_attempts_ : Option String
  two_point_field_goal_percentage_ : Option String
  free_throws_ : Option String
  free_throw_attempts_ : Option String
  free_throw_percentage_ : Option String
  offensive_rebounds_ : Option String
  defensive_rebounds_ : Option String
  total_rebounds_ : Option String
  assists_ : Option String
  steals_ : Option String
  blocks_ : Option String
  turnovers_ : Option String
  personal_fouls_ : Option String
  points_ : Option String
  opp_field_goals_ : Option String
  opp_field_goal_attempts_ : Option String
  opp_field_goal_percentage_ : Option String
  opp_three_point_field_goals_ : Option String
  opp_three_point_field_goal_attempts_ : Option String
  opp_three_point_field_goal_percentage_ : Option String
  opp_two_point_field_goals_ : Option String
  opp_two_point_field_goal_attempts_ : Option String
  opp_two_point_field_goal_percentage_ : Option String
  opp_free_throws_ : Option String
  opp_free_throw_attempts_ : Option String
  opp_free_throw_percentage_ : Option String
  opp_offensive_rebounds_ : Option String
  opp_defensive_rebounds_ : Option String
  opp_total_rebounds_ : Option String
  opp_assists_ : Option String
  opp_steals_ : Option String
  opp_blocks_ : Option String
  opp_turnovers_ : Option String
  opp_personal_fouls_ : Option String
  opp_points_ : Option String
deriving DecidableEq, Repr

/-- `Team.__init__(team_data, rank, year)` followed by
`_parse_team_data`: every stat attribute is set to
`utils._parse_field(PARSING_SCHEME, team_data, name)`.  The extraction
function `pf` (taking the row data and the field name) stands for
`utils._parse_field` with `PARSING_SCHEME` applied, which lives outside
the excerpted sources. -/
def Team.ofData (pf : String → String → Option String) (team_data : String)
    (rank : Nat) (year : Option String) : Team where
  year_ := year
  rank_ := rank
  abbreviation_ := pf team_data "abbreviation"
  name_ := pf team_data "name"
  games_played_ := pf team_data "games_played"
  minutes_played_ := pf team_data "minutes_played"
  field_goals_ := pf team_data "field_goals"
  field_goal_attempts_ := pf team_data "field_goal_attempts"
  field_goal_percentage_ := pf team_data "field_goal_percentage"
  three_point_field_goals_ := pf team_data "three_point_field_goals"
  three_point_field_goal_attempts_ := pf team_data "three_point_field_goal_attempts"
  three_point_field_goal_percentage_ := pf team_data "three_point_field_goal_percentage"
  two_point_field_goals_ := pf team_data "two_point_field_goals"
  two_point_field_goal_attempts_ := pf team_data "two_point_field_goal_attempts"
  two_point_field_goal_percentage_ := pf team_data "two_point_field_goal_percentage"
  free_throws_ := pf team_data "free_throws"
  free_throw_attempts_ := pf team_data "free_throw_attempts"
  free_throw_percentage_ := pf team_data "free_throw_percentage"
  offensive_rebounds_ := pf team_data "offensive_rebounds"
  defensive_rebounds_ := pf team_data "defensive_rebounds"
  total_rebounds_ := pf team_data "total_rebounds"
  assists_ := pf team_data "assists"
  steals_ := pf team_data "steals"
  blocks_ := pf team_data "blocks"
  turnovers_ := pf team_data "turnovers"
  personal_fouls_ := pf team_data "personal_fouls"
  points_ := pf team_data "points"
  opp_field_goals_ := pf team_data "opp_field_goals"
  opp_field_goal_attempts_ := pf team_data "opp_field_goal_attempts"
  opp_field_goal_percentage_ := pf team_data "opp_field_goal_percentage"
  opp_three_point_field_goals_ := pf team_data "opp_three_point_field_goals"
  opp_three_point_field_goal_attempts_ := pf team_data "opp_three_point_field_goal_attempts"
  opp_three_point_field_goal_percentage_ := pf team_data "opp_three_point_field_goal_percentage"
  opp_two_point_field_goals_ := pf team_data "opp_two_point_field_goals"
  opp_two_point_field_goal_attempts_ := pf team_data "opp_two_point_field_goal_attempts"
  opp_two_point_field_goal_percentage_ := pf team_data "opp_two_point_field_goal_percentage"
  opp_free_throws_ := pf team_data "opp_free_throws"
  opp_free_throw_attempts_ := pf team_data "opp_free_throw_attempts"
  opp_free_throw_percentage_ := pf team_data "opp_free_throw_percentage"
  opp_offensive_rebounds_ := pf team_data "opp_offensive_rebounds"
  opp_defensive_rebounds_ := pf team_data "opp_defensive_rebounds"
  opp_total_rebounds_ := pf team_data "opp_total_rebounds"
  opp_assists_ := pf team_data "opp_assists"
  opp_steals_ := pf team_data "opp_steals"
  opp_blocks_ := pf team_data "opp_blocks"
  opp_turnovers_ := pf team_data "opp_turnovers"
  opp_personal_fouls_ := pf team_data "opp_personal_fouls"
  opp_points_ := pf team_data "opp_points"

/-- `Team.rank`: `int(self._rank)` — the rank is already an int. -/
def Team.rank (t : Team) : Nat :=
  t.rank_

/-- `Team.abbreviation`: returns `self._abbreviation` as is. -/
def Team.abbreviation (t : Team) : Option String :=
  t.abbreviation_

/-- `Team.points`: `int(self._points)`. -/
def Team.points (t : Team) : Option Int :=
  pyIntO t.points_

/-- `Team.field_goal_percentage`: `float(self._field_goal_percentage)`. -/
def Team.field_goal_percentage (t : Team) : Option Rat :=
  pyFloatO t.field_goal_percentage_

/-- `Team.opp_field_goal_percentage`:
`float(self._opp_field_goal_percentage)`. -/
def Team.opp_field_goal_percentage (t : Team) : Option Rat :=
  pyFloatO t.opp_field_goal_percentage_

/-- One value of the `team_data_dict`: the accumulated row string and
the rank recorded when the key was first seen. -/
structure RowEntry where
  data : String
  rank : Nat
deriving DecidableEq, Repr

/-- The `team_data_dict`, a Python dict keyed by the parsed
abbreviation: an insertion-ordered association list with unique keys
(the key is `Option String` because `utils._parse_field` may yield
`None`). -/
abbrev TeamDataDict := List (Option String × RowEntry)

/-- Membership test of a key in the dict (`abbr in team_data_dict`). -/
def dictHasKey (d : TeamDataDict) (k : Option String) : Bool :=
  d.any (fun p => p.1 = k)

/-- Dict lookup (`team_data_dict[abbr]`). -/
def dictFind (d : TeamDataDict) (k : Option String) : Option RowEntry :=
  (d.find? (fun p => p.1 = k)).map (fun p => p.2)

/-- The loop body of `Teams._add_stats_data`: append the row text to an
existing key's `data` (`team_data_dict[abbr]['data'] += team_data`), or
insert `{'data': team_data, 'rank': rank}` for a new key (the `KeyError`
branch).  A Python dict keeps the original insertion position on update
and appends new keys at the end. -/
def addRow (d : TeamDataDict) (k : Option String) (row : String) (rank : Nat) :
    TeamDataDict :=
  if dictHasKey d k then
    d.map (fun p => if p.1 = k then (p.1, ⟨p.2.data ++ row, p.2.rank⟩) else p)
  else
    d ++ [(k, ⟨row, rank⟩)]

/-- The loop of `Teams._add_stats_data` with its rank counter: teams are
listed in terms of rank with the first row being rank 1, and the counter
advances on every row. -/
def addStatsLoop (pf : String → String → Option String) :
    List String → Nat → TeamDataDict → TeamDataDict
  | [], _, d => d
  | row :: rows, rank, d =>
    addStatsLoop pf rows (rank + 1) (addRow d (pf row "abbreviation") row rank)

/-- `Teams._add_stats_data(teams_list, team_data_dict)`: fold every row
of the table into the dict, with the rank counter starting at 1. -/
def addStatsData (pf : String → String → Option String) (teams_list : List String)
    (team_data_dict : TeamDataDict) : TeamDataDict :=
  addStatsLoop pf teams_list 1 team_data_dict

/-- `Teams._retrieve_all_teams`: run `_add_stats_data` over the offense
table then the opponent table, then construct one `Team` per dict entry
(in dict order) from its accumulated data and recorded rank. -/
def retrieveAllTeams (pf : String → String → Option String)
    (teams_list opp_teams_list : List String) (year : Option String) : List Team :=
  let team_data_dict := addStatsData pf opp_teams_list (addStatsData pf teams_list [])
  team_data_dict.map (fun p => Team.ofData pf p.2.data p.2.rank year)

/-- The two errors `Teams.__getitem__` can raise: the explicit
`ValueError` for an unknown abbreviation, or an `AttributeError` from
`None.upper()` when a stored abbreviation is `None`. -/
inductive LookupErr where
  | notFound
  | attrError
deriving DecidableEq, Repr

/-- `Teams.__getitem__(abbreviation)` over the ordered team list: return
the first team whose upper-cased abbreviation equals the upper-cased
query; raise `ValueError` when none matches. -/
def teamsGetitem : List Team → String → Except LookupErr Team
  | [], _ => .error .notFound
  | t :: ts, q =>
    match t.abbreviation with
    | none => .error .attrError
    | some a => if pyUpper a = pyUpper q then .ok t else teamsGetitem ts q

end NBA

/-! ## Derived definitions used by the statements -/

/-- String concat of a list of rows, in order (the result of repeated
`'data' += team_data`). -/
def concatRows : List String → String
  | [] => ""
  | r :: rs => r ++ concatRows rs

namespace NBA

/-- The abbreviation `_add_stats_data` parses from a row:
`utils._parse_field(PARSING_SCHEME, team_data, 'abbreviation')`. -/
def abbrOf (pf : String → String → Option String) (row : String) : Option String :=
  pf row "abbreviation"

/-- The merge invariant of `team_data_dict` after the rows `processed`
have been folded in: keys are unique, a key is present exactly when some
processed row parses to it, and each entry's data is the in-order concat
of the processed rows sharing its key. -/
def dictInv (pf : String → String → Option String) (processed : List String)
    (d : TeamDataDict) : Prop :=
  (d.map Prod.fst).Nodup ∧
  (∀ k, k ∈ d.map Prod.fst ↔ k ∈ processed.map (abbrOf pf)) ∧
  (∀ p ∈ d, p.2.data = concatRows (processed.filter (fun r => abbrOf pf r = p.1)))

/-- A sample extraction function for concrete instances: the first three
characters of the row are its abbreviation, every other field is absent. -/
def samplePf (row : String) (field : String) : Option String :=
  if field = "abbreviation" then some ⟨row.data.take 3⟩ else none

/-- A team record with every raw field absent (nothing parsed). -/
def noneTeam : Team :=
  Team.ofData (fun _ _ => none) "" 0 none

end NBA

namespace NHL

/-- A game record with every raw field absent (nothing parsed). -/
def noneGame : Game where
  game_ := none
  date_ := none
  time_ := none
  boxscore_ := none
  location_ := none
  opponent_abbr_ := none
  opponent_name_ := none
  goals_scored_ := none
  goals_allowed_ := none
  result_ := none
  overtime_ := none
  wins_ := none
  losses_ := none
  overtime_losses_ := none
  streak_ := none
  shots_on_goal_ := none
  penalties_in_minutes_ := none
  power_play_goals_ := none
  power_play_opportunities_ := none
  short_handed_goals_ := none
  attendance_ := none
  length_of_game_ := none

end NHL

/-! ## Helper lemmas -/

theorem splitOnChar_eq_single {sep : Char} {cs : List Char} (h : ∀ c ∈ cs, c ≠ sep) :
    splitOnChar sep cs = [cs] := by
  induction cs with
  | nil => rfl
  | cons c cs ih =>
    have hc : c ≠ sep := h c (by simp)
    have := ih (fun c hm => h c (by simp [hm]))
    simp [splitOnChar, hc, this]

theorem digitRuns_eq_nil {cs : List Char} (h : ∀ c ∈ cs, ¬ c.isDigit) :
    digitRuns cs = [] := by
  induction cs with
  | nil => rfl
  | cons c cs ih =>
    have hc : ¬ c.isDigit := h c (by simp)
    have := ih (fun c hm => h c (by simp [hm]))
    simp [digitRuns, hc, this]

theorem char_isDigit_toNat {c : Char} (h : c.isDigit) :
    48 ≤ c.toNat ∧ c.toNat ≤ 57 := by
  simp only [Char.isDigit, Bool.and_eq_true, decide_eq_true_eq] at h
  obtain ⟨h1, h2⟩ := h
  exact ⟨h1, h2⟩

theorem digitsVal_lt {cs : List Char} (h : ∀ c ∈ cs, c.isDigit) (acc : Nat) :
    digitsVal cs acc < 10 ^ cs.length * (acc + 1) := by
  induction cs generalizing acc with
  | nil => simp [digitsVal]
  | cons c cs ih =>
    have hc := char_isDigit_toNat (h c (by simp))
    have hstep := ih (fun d hm => h d (by simp [hm])) (10 * acc + (c.toNat - 48))
    have hdig : c.toNat - 48 ≤ 9 := by omega
    calc digitsVal (c :: cs) acc
        = digitsVal cs (10 * acc + (c.toNat - 48)) := rfl
      _ < 10 ^ cs.length * (10 * acc + (c.toNat - 48) + 1) := hstep
      _ ≤ 10 ^ cs.length * (10 * acc + 10) := by
          exact Nat.mul_le_mul_left _ (by omega)
      _ = 10 ^ (c :: cs).length * (acc + 1) := by
          simp [List.length_cons, pow_succ]
          ring

/-! ## Claims -/

/-- C3: for every parsed Game, if the raw result text is "W"
(case-insensitively) the `result` accessor returns `WIN`; if it is "L"
and the overtime code is nonzero it returns `OVERTIME_LOSS`; if it is
"L" and the overtime code is zero it returns `LOSS`. -/
theorem claim_C3 (g : NHL.Game) (s : String) (h : g.result_ = some s) :
    (pyLower s = "w" → g.result = some GameResult.WIN) ∧
    (∀ n, pyLower s = "l" → g.overtime = some n → n ≠ 0 →
      g.result = some GameResult.OVERTIME_LOSS) ∧
    (pyLower s = "l" → g.overtime = some 0 → g.result = some GameResult.LOSS) := by
  refine ⟨fun hw => ?_, fun n hl hot hne => ?_, fun hl hot => ?_⟩
  · simp [NHL.Game.result, h, hw]
  · have hwne : pyLower s ≠ "w" := by rw [hl]; decide
    simp [NHL.Game.result, h, hl, hwne, hot, hne]
  · have hwne : pyLower s ≠ "w" := by rw [hl]; decide
    simp [NHL.Game.result, h, hl, hwne, hot]

/-- C3 witness: concrete games exercising each branch. -/
theorem claim_C3_witness :
    ({ NHL.noneGame with result_ := some "W" } : NHL.Game).result = some GameResult.WIN ∧
    ({ NHL.noneGame with result_ := some "L", overtime_ := some "OT" } : NHL.Game).result =
      some GameResult.OVERTIME_LOSS ∧
    ({ NHL.noneGame with result_ := some "L", overtime_ := some "" } : NHL.Game).result =
      some GameResult.LOSS := by
  refine ⟨(claim_C3 _ "W" rfl).1 (by decide),
    (claim_C3 _ "L" rfl).2.1 1 (by decide) (by decide) (by decide),
    (claim_C3 _ "L" rfl).2.2 (by decide) (by decide)⟩

/-- C10: the `overtime` accessor is total over raw strings: it returns
`1` on "ot" (case-insensitively), `SHOOTOUT` on "so"
(case-insensitively), `0` on the empty string, the first decimal number
embedded in the text when one exists, and `0` on any other string
containing no digits. -/
theorem claim_C10 (g : NHL.Game) (s : String) (h : g.overtime_ = some s) :
    (pyLower s = "ot" → g.overtime = some 1) ∧
    (pyLower s = "so" → g.overtime = some SHOOTOUT) ∧
    (s = "" → g.overtime = some 0) ∧
    (∀ n ns, pyLower s ≠ "ot" → pyLower s ≠ "so" → findNumbers s = n :: ns →
      g.overtime = some n) ∧
    (pyLower s ≠ "ot" → pyLower s ≠ "so" → (∀ c ∈ s.data, ¬ c.isDigit) →
      g.overtime = some 0) := by
  refine ⟨fun hot => ?_, fun hso => ?_, fun hemp => ?_, fun n ns hot hso hfind => ?_,
    fun hot hso hnd => ?_⟩
  · simp [NHL.Game.overtime, h, NHL.overtimeOfText, hot]
  · have : pyLower s ≠ "ot" := by rw [hso]; decide
    simp [NHL.Game.overtime, h, NHL.overtimeOfText, hso, this]
  · subst hemp
    simp [NHL.Game.overtime, h, NHL.overtimeOfText]
    decide
  · have hemp : s ≠ "" := by
      intro hs
      rw [hs] at hfind
      simp [findNumbers, digitRuns] at hfind
    simp [NHL.Game.overtime, h, NHL.overtimeOfText, hot, hso, hemp, hfind]
  · by_cases hemp : s = ""
    · subst hemp
      simp [NHL.Game.overtime, h, NHL.overtimeOfText]
      decide
    · have hruns : digitRuns s.data = [] := digitRuns_eq_nil hnd
      simp [NHL.Game.overtime, h, NHL.overtimeOfText, hot, hso, hemp, findNumbers, hruns]

/-- C10 witness: concrete raw texts exercising every case. -/
theorem claim_C10_witness :
    ({ NHL.noneGame with overtime_ := some "OT" } : NHL.Game).overtime = some 1 ∧
    ({ NHL.noneGame with overtime_ := some "SO" } : NHL.Game).overtime = some SHOOTOUT ∧
    ({ NHL.noneGame with overtime_ := some "" } : NHL.Game).overtime = some 0 ∧
    ({ NHL.noneGame with overtime_ := some "3OT" } : NHL.Game).overtime = some 3 ∧
    ({ NHL.noneGame with overtime_ := some "xyz" } : NHL.Game).overtime = some 0 := by
  refine ⟨(claim_C10 _ "OT" rfl).1 (by decide),
    (claim_C10 _ "SO" rfl).2.1 (by decide),
    (claim_C10 _ "" rfl).2.2.1 rfl,
    (claim_C10 _ "3OT" rfl).2.2.2.1 3 [] (by decide) (by decide) (by decide),
    (claim_C10 _ "xyz" rfl).2.2.2.2 (by decide) (by decide) (by decide)⟩

/-- C6: a malformed or missing raw value (empty string, or `None` where
an integer is expected) makes the typed accessor fail with the
type-coercion failure itself — the accessor is exactly the coercion of
the raw value, nothing is caught and no default is substituted. -/
theorem claim_C6 (t : NBA.Team) (g : NHL.Game) :
    NBA.Team.points t = pyIntO t.points_ ∧
    NHL.Game.goals_scored g = pyIntO g.goals_scored_ ∧
    (t.points_ = none ∨ t.points_ = some "" → NBA.Team.points t = none) ∧
    (g.goals_scored_ = none ∨ g.goals_scored_ = some "" → NHL.Game.goals_scored g = none) := by
  refine ⟨rfl, rfl, fun h => ?_, fun h => ?_⟩
  · rcases h with h | h <;> simp [NBA.Team.points, h, pyIntO, pyInt]
  · rcases h with h | h <;> simp [NHL.Game.goals_scored, h, pyIntO, pyInt]

/-- C6 witness: a team with an unparsed `points` and a game with an
empty `goals_scored` cell both fail. -/
theorem claim_C6_witness :
    NBA.Team.points NBA.noneTeam = none ∧
    NHL.Game.goals_scored { NHL.noneGame with goals_scored_ := some "" } = none :=
  ⟨(claim_C6 NBA.noneTeam NHL.noneGame).2.2.1 (Or.inl rfl),
   (claim_C6 NBA.noneTeam { NHL.noneGame with goals_scored_ := some "" }).2.2.2 (Or.inr rfl)⟩

/-- C7 counterexample: the attendance accessor does not return the raw
cell text under the documented string→int coercion alone — on the raw
text "17,562" the plain coercion fails (a comma is not a digit), yet the
accessor returns 17562, because the code first deletes the commas. -/
theorem claim_C7_counterexample :
    NHL.Game.attendance { NHL.noneGame with attendance_ := some "17,562" } = some 17562 ∧
    pyIntO ({ NHL.noneGame with attendance_ := some "17,562" } : NHL.Game).attendance_ =
      none := by
  constructor
  · decide
  · decide

/-- C7 (amended): accessors return the raw cell text under the
documented coercion alone — the string accessor `streak` verbatim and
`goals_scored` under string→int — except `attendance`, which first
deletes the thousands-separator commas from the text and only then
applies string→int. -/
theorem claim_C7_amended (g : NHL.Game) (s : String) :
    NHL.Game.streak g = g.streak_ ∧
    NHL.Game.goals_scored g = pyIntO g.goals_scored_ ∧
    (g.attendance_ = some s → NHL.Game.attendance g = pyInt (removeCommas s)) := by
  refine ⟨rfl, rfl, fun h => ?_⟩
  simp [NHL.Game.attendance, h]

/-- C7 witness: the amended description evaluated on a concrete game. -/
theorem claim_C7_witness :
    NHL.Game.attendance { NHL.noneGame with attendance_ := some "17,562" } =
      pyInt (removeCommas "17,562") :=
  (claim_C7_amended { NHL.noneGame with attendance_ := some "17,562" } "17,562").2.2 rfl

/-- C9: `Schedule.__call__` matches on the calendar date only: two query
datetimes with equal year, month and day select the same game whatever
their times of day. -/
theorem claim_C9 (games : List NHL.Game) (d1 d2 : NHL.PyDateTime)
    (hy : d1.year = d2.year) (hm : d1.month = d2.month) (hd : d1.day = d2.day) :
    NHL.scheduleCall games d1 = NHL.scheduleCall games d2 := by
  induction games with
  | nil => rfl
  | cons g gs ih =>
    simp only [NHL.scheduleCall]
    rcases hgd : g.datetime with _ | gd
    · rfl
    · simp only [hy, hm, hd, ih]

/-- C9 witness: morning and late-evening queries on the same calendar
day return the same game. -/
theorem claim_C9_witness :
    NHL.scheduleCall
        [{ NHL.noneGame with date_ := some "2017-10-05", time_ := some "7:00 PM" }]
        ⟨2017, 10, 5, 1, 0⟩ =
      NHL.scheduleCall
        [{ NHL.noneGame with date_ := some "2017-10-05", time_ := some "7:00 PM" }]
        ⟨2017, 10, 5, 23, 59⟩ :=
  claim_C9 _ ⟨2017, 10, 5, 1, 0⟩ ⟨2017, 10, 5, 23, 59⟩ rfl rfl rfl

theorem teamsGetitem_error_iff (ts : List NBA.Team) (q : String)
    (habbr : ∀ t ∈ ts, t.abbreviation_ ≠ none) :
    NBA.teamsGetitem ts q = .error .notFound ↔
      ∀ t ∈ ts, ∀ a, t.abbreviation_ = some a → pyUpper a ≠ pyUpper q := by
  induction ts with
  | nil => simp [NBA.teamsGetitem]
  | cons t ts ih =>
    rcases ha : t.abbreviation_ with _ | a
    · exact absurd ha (habbr t (by simp))
    · have ihs := ih (fun t' hm => habbr t' (by simp [hm]))
      by_cases hcmp : pyUpper a = pyUpper q
      · simp [NBA.teamsGetitem, NBA.Team.abbreviation, ha, hcmp]
      · simp only [NBA.teamsGetitem, NBA.Team.abbreviation, ha, if_neg hcmp]
        rw [ihs]
        constructor
        · intro h
          intro t' hmem a' ha'
          rcases List.mem_cons.mp hmem with rfl | hmem'
          · rw [ha] at ha'
            cases ha'
            exact hcmp
          · exact h t' hmem' a' ha'
        · intro h t' hmem a' ha'
          exact h t' (by simp [hmem]) a' ha'

theorem teamsGetitem_ok (ts : List NBA.Team) (q : String) (t : NBA.Team)
    (h : NBA.teamsGetitem ts q = .ok t) :
    t ∈ ts ∧ ∃ a, t.abbreviation_ = some a ∧ pyUpper a = pyUpper q := by
  induction ts with
  | nil => simp [NBA.teamsGetitem] at h
  | cons t' ts ih =>
    rcases ha : t'.abbreviation_ with _ | a
    · simp [NBA.teamsGetitem, NBA.Team.abbreviation, ha] at h
    · by_cases hcmp : pyUpper a = pyUpper q
      · simp only [NBA.teamsGetitem, NBA.Team.abbreviation, ha, if_pos hcmp] at h
        cases h
        exact ⟨by simp, a, ha, hcmp⟩
      · simp only [NBA.teamsGetitem, NBA.Team.abbreviation, ha, if_neg hcmp] at h
        obtain ⟨hmem, hex⟩ := ih h
        exact ⟨by simp [hmem], hex⟩

theorem scheduleCall_error_iff (games : List NHL.Game) (d : NHL.PyDateTime)
    (hdates : ∀ g ∈ games, g.datetime ≠ none) :
    NHL.scheduleCall games d = .error .notFound ↔
      ∀ g ∈ games, ∀ gd, g.datetime = some gd →
        ¬(gd.year = d.year ∧ gd.month = d.month ∧ gd.day = d.day) := by
  induction games with
  | nil => simp [NHL.scheduleCall]
  | cons g gs ih =>
    rcases hgd : g.datetime with _ | gd
    · exact absurd hgd (hdates g (by simp))
    · have ihs := ih (fun g' hm => hdates g' (by simp [hm]))
      by_cases hcmp : gd.year = d.year ∧ gd.month = d.month ∧ gd.day = d.day
      · simp [NHL.scheduleCall, hgd, hcmp]
      · simp only [NHL.scheduleCall, hgd, if_neg hcmp]
        rw [ihs]
        constructor
        · intro h g' hmem gd' hgd'
          rcases List.mem_cons.mp hmem with rfl | hmem'
          · rw [hgd] at hgd'
            cases hgd'
            exact hcmp
          · exact h g' hmem' gd' hgd'
        · intro h g' hmem gd' hgd'
          exact h g' (by simp [hmem]) gd' hgd'

theorem scheduleCall_ok (games : List NHL.Game) (d : NHL.PyDateTime) (g : NHL.Game)
    (h : NHL.scheduleCall games d = .ok g) :
    g ∈ games ∧ ∃ gd, g.datetime = some gd ∧
      gd.year = d.year ∧ gd.month = d.month ∧ gd.day = d.day := by
  induction games with
  | nil => simp [NHL.scheduleCall] at h
  | cons g' gs ih =>
    rcases hgd : g'.datetime with _ | gd
    · simp [NHL.scheduleCall, hgd] at h
    · by_cases hcmp : gd.year = d.year ∧ gd.month = d.month ∧ gd.day = d.day
      · simp only [NHL.scheduleCall, hgd, if_pos hcmp] at h
        cases h
        exact ⟨by simp, gd, hgd, hcmp⟩
      · simp only [NHL.scheduleCall, hgd, if_neg hcmp] at h
        obtain ⟨hmem, hex⟩ := ih h
        exact ⟨by simp [hmem], hex⟩

/-- C4: both keyed lookups are total over their collections: an absent
key (an abbreviation no team carries, a date no game is played on)
raises the not-found `ValueError` and a present key does not; any
returned record matches the key, and when some record carries the key
the lookup does return such a matching record. -/
theorem teamsGetitem_present (ts : List NBA.Team) (q : String)
    (habbr : ∀ t ∈ ts, t.abbreviation_ ≠ none)
    (hpres : ∃ t ∈ ts, ∃ a, t.abbreviation_ = some a ∧ pyUpper a = pyUpper q) :
    ∃ t, NBA.teamsGetitem ts q = .ok t ∧ t ∈ ts ∧
      ∃ a, t.abbreviation_ = some a ∧ pyUpper a = pyUpper q := by
  induction ts with
  | nil => simp at hpres
  | cons t ts ih =>
    rcases ha : t.abbreviation_ with _ | a
    · exact absurd ha (habbr t (by simp))
    · by_cases hcmp : pyUpper a = pyUpper q
      · exact ⟨t, by simp [NBA.teamsGetitem, NBA.Team.abbreviation, ha, hcmp], by simp,
          a, ha, hcmp⟩
      · have hpres' : ∃ t' ∈ ts, ∃ a', t'.abbreviation_ = some a' ∧
            pyUpper a' = pyUpper q := by
          obtain ⟨t', hmem, a', ha', hcmp'⟩ := hpres
          rcases List.mem_cons.mp hmem with rfl | hmem'
          · rw [ha] at ha'
            cases ha'
            exact absurd hcmp' hcmp
          · exact ⟨t', hmem', a', ha', hcmp'⟩
        obtain ⟨t', hok, hmem', hex⟩ := ih (fun x hx => habbr x (by simp [hx])) hpres'
        exact ⟨t', by simp [NBA.teamsGetitem, NBA.Team.abbreviation, ha, hcmp, hok],
          by simp [hmem'], hex⟩

theorem scheduleCall_present (games : List NHL.Game) (d : NHL.PyDateTime)
    (hdates : ∀ g ∈ games, g.datetime ≠ none)
    (hpres : ∃ g ∈ games, ∃ gd, g.datetime = some gd ∧
      gd.year = d.year ∧ gd.month = d.month ∧ gd.day = d.day) :
    ∃ g, NHL.scheduleCall games d = .ok g ∧ g ∈ games ∧
      ∃ gd, g.datetime = some gd ∧
        gd.year = d.year ∧ gd.month = d.month ∧ gd.day = d.day := by
  induction games with
  | nil => simp at hpres
  | cons g gs ih =>
    rcases hgd : g.datetime with _ | gd
    · exact absurd hgd (hdates g (by simp))
    · by_cases hcmp : gd.year = d.year ∧ gd.month = d.month ∧ gd.day = d.day
      · exact ⟨g, by simp [NHL.scheduleCall, hgd, hcmp], by simp, gd, hgd, hcmp⟩
      · have hpres' : ∃ g' ∈ gs, ∃ gd', g'.datetime = some gd' ∧
            gd'.year = d.year ∧ gd'.month = d.month ∧ gd'.day = d.day := by
          obtain ⟨g', hmem, gd', hgd', hy, hm, hd⟩ := hpres
          rcases List.mem_cons.mp hmem with rfl | hmem'
          · rw [hgd] at hgd'
            cases hgd'
            exact absurd ⟨hy, hm, hd⟩ hcmp
          · exact ⟨g', hmem', gd', hgd', hy, hm, hd⟩
        obtain ⟨g', hok, hmem', hex⟩ := ih (fun x hx => hdates x (by simp [hx])) hpres'
        exact ⟨g', by simp [NHL.scheduleCall, hgd, hcmp, hok], by simp [hmem'], hex⟩

theorem claim_C4 (ts : List NBA.Team) (q : String)
    (games : List NHL.Game) (d : NHL.PyDateTime)
    (habbr : ∀ t ∈ ts, t.abbreviation_ ≠ none)
    (hdates : ∀ g ∈ games, g.datetime ≠ none) :
    ((NBA.teamsGetitem ts q = .error .notFound ↔
        ∀ t ∈ ts, ∀ a, t.abbreviation_ = some a → pyUpper a ≠ pyUpper q) ∧
      (∀ t, NBA.teamsGetitem ts q = .ok t →
        t ∈ ts ∧ ∃ a, t.abbreviation_ = some a ∧ pyUpper a = pyUpper q) ∧
      ((∃ t ∈ ts, ∃ a, t.abbreviation_ = some a ∧ pyUpper a = pyUpper q) →
        ∃ t, NBA.teamsGetitem ts q = .ok t ∧ t ∈ ts ∧
          ∃ a, t.abbreviation_ = some a ∧ pyUpper a = pyUpper q)) ∧
    ((NHL.scheduleCall games d = .error .notFound ↔
        ∀ g ∈ games, ∀ gd, g.datetime = some gd →
          ¬(gd.year = d.year ∧ gd.month = d.month ∧ gd.day = d.day)) ∧
      (∀ g, NHL.scheduleCall games d = .ok g →
        g ∈ games ∧ ∃ gd, g.datetime = some gd ∧
          gd.year = d.year ∧ gd.month = d.month ∧ gd.day = d.day) ∧
      ((∃ g ∈ games, ∃ gd, g.datetime = some gd ∧
          gd.year = d.year ∧ gd.month = d.month ∧ gd.day = d.day) →
        ∃ g, NHL.scheduleCall games d = .ok g ∧ g ∈ games ∧
          ∃ gd, g.datetime = some gd ∧
            gd.year = d.year ∧ gd.month = d.month ∧ gd.day = d.day)) :=
  ⟨⟨teamsGetitem_error_iff ts q habbr, fun t h => teamsGetitem_ok ts q t h,
    fun hpres => teamsGetitem_present ts q habbr hpres⟩,
   ⟨scheduleCall_error_iff games d hdates, fun g h => scheduleCall_ok games d g h,
    fun hpres => scheduleCall_present games d hdates hpres⟩⟩

/-- C4 witness: on concrete collections, an absent abbreviation and an
unplayed date both raise the not-found error, while a present
abbreviation and a played date both return a matching record. -/
theorem claim_C4_witness :
    (NBA.teamsGetitem [{ NBA.noneTeam with abbreviation_ := some "DET" }] "BOS" =
        .error .notFound ∧
      NHL.scheduleCall
          [{ NHL.noneGame with date_ := some "2017-10-05", time_ := some "7:00 PM" }]
          ⟨2018, 1, 1, 12, 0⟩ =
        .error .notFound) ∧
    ((∃ t, NBA.teamsGetitem [{ NBA.noneTeam with abbreviation_ := some "DET" }] "det" =
          .ok t ∧ t ∈ [{ NBA.noneTeam with abbreviation_ := some "DET" }] ∧
        ∃ a, t.abbreviation_ = some a ∧ pyUpper a = pyUpper "det") ∧
      (∃ g, NHL.scheduleCall
            [{ NHL.noneGame with date_ := some "2017-10-05", time_ := some "7:00 PM" }]
            ⟨2017, 10, 5, 8, 30⟩ = .ok g ∧
          g ∈ [{ NHL.noneGame with date_ := some "2017-10-05", time_ := some "7:00 PM" }] ∧
        ∃ gd, g.datetime = some gd ∧ gd.year = 2017 ∧ gd.month = 10 ∧ gd.day = 5)) := by
  have h1 := claim_C4 [{ NBA.noneTeam with abbreviation_ := some "DET" }] "BOS"
    [{ NHL.noneGame with date_ := some "2017-10-05", time_ := some "7:00 PM" }]
    ⟨2018, 1, 1, 12, 0⟩ (by decide) (by decide)
  have h2 := claim_C4 [{ NBA.noneTeam with abbreviation_ := some "DET" }] "det"
    [{ NHL.noneGame with date_ := some "2017-10-05", time_ := some "7:00 PM" }]
    ⟨2017, 10, 5, 8, 30⟩ (by decide) (by decide)
  refine ⟨⟨h1.1.1.mpr (by decide), h1.2.1.mpr (by decide)⟩,
    h2.1.2.2 ⟨{ NBA.noneTeam with abbreviation_ := some "DET" }, by simp, "DET", rfl,
      by decide⟩,
    h2.2.2.2 ⟨{ NHL.noneGame with date_ := some "2017-10-05", time_ := some "7:00 PM" },
      by simp, ⟨2017, 10, 5, 19, 0⟩, by decide, rfl, rfl, rfl⟩⟩

theorem char_toNat_ofNat_lt {n : Nat} (h : n < 55296) : (Char.ofNat n).toNat = n := by
  unfold Char.ofNat
  rw [dif_pos (Or.inl h)]
  rfl

theorem char_toUpper_not_lower (c : Char) :
    ¬(97 ≤ c.toUpper.toNat ∧ c.toUpper.toNat ≤ 122) := by
  unfold Char.toUpper
  by_cases h : c.toNat ≥ 97 ∧ c.toNat ≤ 122
  · rw [if_pos h]
    rw [char_toNat_ofNat_lt (by omega)]
    omega
  · rw [if_neg h]
    omega

theorem char_toUpper_idem (c : Char) : c.toUpper.toUpper = c.toUpper := by
  have h := char_toUpper_not_lower c
  conv_lhs => rw [Char.toUpper]
  rw [if_neg (by exact fun hc => h ⟨hc.1, hc.2⟩)]

theorem pyUpper_idem (s : String) : pyUpper (pyUpper s) = pyUpper s := by
  unfold pyUpper
  apply String.ext
  simp only [List.map_map]
  exact List.map_congr_left (fun c _ => char_toUpper_idem c)

/-- C8: team lookup is case-insensitive: the comparison upper-cases both
the stored abbreviation and the query, so any two queries with the same
upper-casing — in particular a query and its upper-cased form — return
the same result. -/
theorem claim_C8 (ts : List NBA.Team) (q q1 q2 : String) (h : pyUpper q1 = pyUpper q2) :
    NBA.teamsGetitem ts q1 = NBA.teamsGetitem ts q2 ∧
    NBA.teamsGetitem ts q = NBA.teamsGetitem ts (pyUpper q) := by
  have main : ∀ (ts : List NBA.Team) (r1 r2 : String), pyUpper r1 = pyUpper r2 →
      NBA.teamsGetitem ts r1 = NBA.teamsGetitem ts r2 := by
    intro ts r1 r2 hr
    induction ts with
    | nil => rfl
    | cons t ts ih =>
      simp only [NBA.teamsGetitem]
      rcases ha : NBA.Team.abbreviation t with _ | a
      · rfl
      · simp only [hr, ih]
  exact ⟨main ts q1 q2 h, main ts q (pyUpper q) (pyUpper_idem q).symm⟩

/-- C8 witness: a mixed-case query behaves like its upper-case form on a
concrete team list. -/
theorem claim_C8_witness :
    NBA.teamsGetitem [{ NBA.noneTeam with abbreviation_ := some "DET" }] "dEt" =
        NBA.teamsGetitem [{ NBA.noneTeam with abbreviation_ := some "DET" }] "Det" ∧
      NBA.teamsGetitem [{ NBA.noneTeam with abbreviation_ := some "DET" }] "dEt" =
        NBA.teamsGetitem [{ NBA.noneTeam with abbreviation_ := some "DET" }]
          (pyUpper "dEt") :=
  claim_C8 [{ NBA.noneTeam with abbreviation_ := some "DET" }] "dEt" "dEt" "Det" (by decide)

theorem pyFloat_pct_bound {s : String} {ds : List Char} (hne : ds ≠ [])
    (hdig : ∀ c ∈ ds, c.isDigit) (hs : s.data = '.' :: ds ∨ s.data = '0' :: '.' :: ds) :
    ∃ x, pyFloat s = some x ∧ 0 ≤ x ∧ x ≤ 1 := by
  have hnd : ∀ c ∈ ds, c ≠ '.' := by
    intro c hm heq
    have := hdig c hm
    rw [heq] at this
    simp [Char.isDigit] at this
  have hz : digitsVal ['0'] 0 = 0 := by decide
  have hval : pyFloat s = some ((digitsVal ds 0 : Rat) / (10 : Rat) ^ ds.length) := by
    rcases hs with hs | hs
    · rw [pyFloat, hs]
      simp [splitOnChar, splitOnChar_eq_single hnd, List.all_eq_true, digitsVal]
      exact ⟨hne, hdig⟩
    · rw [pyFloat, hs]
      simp [splitOnChar, splitOnChar_eq_single hnd, List.all_eq_true, hz]
      exact hdig
  refine ⟨_, hval, ?_, ?_⟩
  · positivity
  · rw [div_le_one (by positivity)]
    have hlt : digitsVal ds 0 < 10 ^ ds.length := by
      have := digitsVal_lt hdig 0
      simpa using this
    exact_mod_cast Nat.le_of_lt hlt

/-- C5 counterexample: the percentage accessor is the bare float
coercion of the cell text and enforces no range: on the raw text "2.5"
it returns 5/2, which is not in [0, 1].  The claim's universal
quantification over every raw percentage cell text therefore fails. -/
theorem claim_C5_counterexample :
    NBA.Team.field_goal_percentage
        { NBA.noneTeam with field_goal_percentage_ := some "2.5" } = some (5 / 2 : Rat) ∧
    ¬((5 / 2 : Rat) ≤ 1) := by
  constructor
  · show pyFloat "2.5" = some (5 / 2 : Rat)
    have hds : ("2.5" : String).data = ['2', '.', '5'] := rfl
    have h2 : ('2' : Char).toNat = 50 := rfl
    have h5 : ('5' : Char).toNat = 53 := rfl
    rw [pyFloat, hds]
    simp [splitOnChar, digitsVal, h2, h5]
    norm_num
  · norm_num

/-- C5 (amended): the percentage accessors return the float decoding of
the raw cell text, and that value lies in [0, 1] whenever the text is a
decimal numeral with integer part zero — the site's percentage format
".xyz" (or "0.xyz"); an arbitrary cell text is not so constrained. -/
theorem claim_C5_amended (t : NBA.Team) (s : String) (ds : List Char)
    (hne : ds ≠ []) (hdig : ∀ c ∈ ds, c.isDigit)
    (hs : s.data = '.' :: ds ∨ s.data = '0' :: '.' :: ds) :
    (t.field_goal_percentage_ = some s →
      ∃ x, NBA.Team.field_goal_percentage t = some x ∧ 0 ≤ x ∧ x ≤ 1) ∧
    (t.opp_field_goal_percentage_ = some s →
      ∃ x, NBA.Team.opp_field_goal_percentage t = some x ∧ 0 ≤ x ∧ x ≤ 1) := by
  obtain ⟨x, hx, h0, h1⟩ := pyFloat_pct_bound hne hdig hs
  constructor <;> intro hraw
  · exact ⟨x, by simp [NBA.Team.field_goal_percentage, pyFloatO, hraw, hx], h0, h1⟩
  · exact ⟨x, by simp [NBA.Team.opp_field_goal_percentage, pyFloatO, hraw, hx], h0, h1⟩

/-- C5 witness: a concrete ".512" cell decodes into [0, 1] for both the
offense and the opponent percentage accessor. -/
theorem claim_C5_witness :
    (∃ x, NBA.Team.field_goal_percentage
        { NBA.noneTeam with field_goal_percentage_ := some ".512", opp_field_goal_percentage_ := some ".512" } = some x ∧ 0 ≤ x ∧ x ≤ 1) ∧
    (∃ x, NBA.Team.opp_field_goal_percentage
        { NBA.noneTeam with field_goal_percentage_ := some ".512", opp_field_goal_percentage_ := some ".512" } = some x ∧ 0 ≤ x ∧ x ≤ 1) := by
  have h := claim_C5_amended
    { NBA.noneTeam with field_goal_percentage_ := some ".512", opp_field_goal_percentage_ := some ".512" }
    ".512" ['5', '1', '2'] (by decide) (by decide) (Or.inl (by decide))
  exact ⟨h.1 rfl, h.2 rfl⟩

theorem concatRows_append (xs ys : List String) :
    concatRows (xs ++ ys) = concatRows xs ++ concatRows ys := by
  induction xs with
  | nil => simp [concatRows]
  | cons x xs ih => simp [concatRows, ih, String.append_assoc]

theorem dictHasKey_iff {d : NBA.TeamDataDict} {k : Option String} :
    NBA.dictHasKey d k = true ↔ k ∈ d.map Prod.fst := by
  simp [NBA.dictHasKey, List.any_eq_true, List.mem_map]

theorem addRow_dictInv {pf : String → String → Option String} {processed : List String}
    {d : NBA.TeamDataDict} (h : NBA.dictInv pf processed d) (row : String) (rank : Nat) :
    NBA.dictInv pf (processed ++ [row]) (NBA.addRow d (NBA.abbrOf pf row) row rank) := by
  obtain ⟨hnd, hmem, hdata⟩ := h
  by_cases hk : NBA.dictHasKey d (NBA.abbrOf pf row) = true
  · have hkeys :
        ((d.map (fun p => if p.1 = NBA.abbrOf pf row then
            (p.1, (⟨p.2.data ++ row, p.2.rank⟩ : NBA.RowEntry)) else p)).map Prod.fst) =
          d.map Prod.fst := by
      rw [List.map_map]
      exact List.map_congr_left (fun p _ => by by_cases hp : p.1 = NBA.abbrOf pf row <;>
        simp [hp])
    refine ⟨?_, ?_, ?_⟩
    · simp only [NBA.addRow, if_pos hk, hkeys]
      exact hnd
    · intro k'
      simp only [NBA.addRow, if_pos hk, hkeys]
      rw [hmem k']
      simp only [List.map_append, List.mem_append, List.map_cons, List.map_nil,
        List.mem_singleton]
      constructor
      · exact Or.inl
      · rintro (hin | rfl)
        · exact hin
        · exact (hmem _).mp (dictHasKey_iff.mp hk)
    · intro p' hp'
      simp only [NBA.addRow, if_pos hk] at hp'
      obtain ⟨p, hp, rfl⟩ := List.mem_map.mp hp'
      by_cases hpk : p.1 = NBA.abbrOf pf row
      · simp only [if_pos hpk]
        rw [List.filter_append, concatRows_append]
        have hrow : List.filter (fun r => decide (NBA.abbrOf pf r = p.1)) [row] = [row] := by
          simp [hpk]
        rw [hrow]
        simp only [concatRows, String.append_empty]
        rw [← hdata p hp]
      · simp only [if_neg hpk]
        rw [List.filter_append]
        have hrow : List.filter (fun r => decide (NBA.abbrOf pf r = p.1)) [row] = [] := by
          simp
          intro he
          exact hpk he.symm
        rw [hrow, List.append_nil]
        exact hdata p hp
  · have hnk : NBA.abbrOf pf row ∉ d.map Prod.fst := fun hin =>
      hk (dictHasKey_iff.mpr hin)
    refine ⟨?_, ?_, ?_⟩
    · simp only [NBA.addRow, if_neg hk, List.map_append]
      rw [List.nodup_append]
      refine ⟨hnd, List.nodup_singleton _, ?_⟩
      intro a ha hb
      simp only [List.map_cons, List.map_nil, List.mem_singleton] at hb
      exact hnk (hb ▸ ha)
    · intro k'
      simp only [NBA.addRow, if_neg hk, List.map_append, List.mem_append, List.map_cons,
        List.map_nil, List.mem_singleton]
      rw [hmem k']
    · intro p' hp'
      simp only [NBA.addRow, if_neg hk] at hp'
      rcases List.mem_append.mp hp' with hin | hnew
      · have hpk : p'.1 ≠ NBA.abbrOf pf row := by
          intro he
          exact hnk (he ▸ List.mem_map_of_mem Prod.fst hin)
        rw [List.filter_append]
        have hrow : List.filter (fun r => decide (NBA.abbrOf pf r = p'.1)) [row] = [] := by
          simp
          intro he
          exact hpk he.symm
        rw [hrow, List.append_nil]
        exact hdata p' hin
      · simp only [List.mem_singleton] at hnew
        subst hnew
        rw [List.filter_append]
        have hproc : List.filter (fun r => decide (NBA.abbrOf pf r = NBA.abbrOf pf row))
            processed = [] := by
          simp only [List.filter_eq_nil_iff, decide_eq_true_eq]
          intro r hr he
          exact hnk ((hmem _).mpr (he ▸ List.mem_map_of_mem (NBA.abbrOf pf) hr))
        have hrow : List.filter (fun r => decide (NBA.abbrOf pf r = NBA.abbrOf pf row))
            [row] = [row] := by
          simp
        rw [hproc, hrow]
        simp [concatRows]

theorem addStatsLoop_dictInv (pf : String → String → Option String) (rows : List String)
    (rank : Nat) {processed : List String} {d : NBA.TeamDataDict}
    (h : NBA.dictInv pf processed d) :
    NBA.dictInv pf (processed ++ rows) (NBA.addStatsLoop pf rows rank d) := by
  induction rows generalizing processed d rank with
  | nil => simpa using h
  | cons row rows ih =>
    have h1 := addRow_dictInv h row rank
    have h2 := ih (rank + 1) h1
    rw [List.append_assoc] at h2
    simpa using h2

/-- C1: processing the offense table then the opponent table produces a
dict with exactly one entry per distinct parsed abbreviation — its keys
are the abbreviations of the rows, without duplicates — whose data is
the in-order concat (offense rows first, then opponent rows) of all rows
sharing that abbreviation; `_retrieve_all_teams` then constructs exactly
one `Team` from each such entry, so a merged record carries both tables'
fields. -/
theorem claim_C1 (pf : String → String → Option String)
    (teams_list opp_teams_list : List String) (year : Option String) :
    (((NBA.addStatsData pf opp_teams_list (NBA.addStatsData pf teams_list [])).map
        Prod.fst).Nodup) ∧
    (∀ k, k ∈ (NBA.addStatsData pf opp_teams_list
          (NBA.addStatsData pf teams_list [])).map Prod.fst ↔
        k ∈ (teams_list ++ opp_teams_list).map (NBA.abbrOf pf)) ∧
    (∀ p ∈ NBA.addStatsData pf opp_teams_list (NBA.addStatsData pf teams_list []),
      p.2.data = concatRows ((teams_list ++ opp_teams_list).filter
        (fun r => NBA.abbrOf pf r = p.1))) ∧
    NBA.retrieveAllTeams pf teams_list opp_teams_list year =
      (NBA.addStatsData pf opp_teams_list (NBA.addStatsData pf teams_list [])).map
        (fun p => NBA.Team.ofData pf p.2.data p.2.rank year) := by
  have h0 : NBA.dictInv pf [] [] := ⟨List.nodup_nil, by simp, by simp⟩
  have h1 := addStatsLoop_dictInv pf teams_list 1 h0
  have h2 := addStatsLoop_dictInv pf opp_teams_list 1 h1
  simp only [List.nil_append] at h2
  exact ⟨h2.1, h2.2.1, h2.2.2, rfl⟩

theorem find?_congr {α : Type _} {p q : α → Bool} :
    ∀ {l : List α}, (∀ a ∈ l, p a = q a) → l.find? p = l.find? q
  | [], _ => rfl
  | a :: l, h => by
    rw [List.find?_cons, List.find?_cons, h a (by simp)]
    cases hq : q a
    · exact find?_congr (fun a ha => h a (by simp [ha]))
    · rfl

theorem hasKey_of_dictFind_some {d : NBA.TeamDataDict} {k : Option String}
    {e : NBA.RowEntry} (h : NBA.dictFind d k = some e) :
    NBA.dictHasKey d k = true := by
  simp only [NBA.dictFind, Option.map_eq_some'] at h
  obtain ⟨p, hp, _⟩ := h
  have hmem := List.mem_of_find?_eq_some hp
  have hpred := List.find?_some hp
  simp only [NBA.dictHasKey, List.any_eq_true]
  exact ⟨p, hmem, hpred⟩

theorem dictHasKey_addRow {d : NBA.TeamDataDict} (k k' : Option String) (row : String)
    (r' : Nat) (hk : NBA.dictHasKey d k = true) :
    NBA.dictHasKey (NBA.addRow d k' row r') k = true := by
  rw [NBA.addRow]
  rw [NBA.dictHasKey, List.any_eq_true] at hk
  obtain ⟨p, hp, hpred⟩ := hk
  by_cases hk' : NBA.dictHasKey d k' = true
  · rw [if_pos hk', NBA.dictHasKey, List.any_map, List.any_eq_true]
    refine ⟨p, hp, ?_⟩
    by_cases hpk : p.1 = k' <;> simp_all
  · rw [if_neg hk', NBA.dictHasKey, List.any_append, Bool.or_eq_true]
    left
    exact List.any_eq_true.mpr ⟨p, hp, hpred⟩

theorem dictHasKey_addRow_of_ne {d : NBA.TeamDataDict} {k k' : Option String} (row : String)
    (r' : Nat) (hk : NBA.dictHasKey d k = false) (hne : k' ≠ k) :
    NBA.dictHasKey (NBA.addRow d k' row r') k = false := by
  rw [NBA.addRow]
  rw [NBA.dictHasKey, List.any_eq_false] at hk
  by_cases hk' : NBA.dictHasKey d k' = true
  · rw [if_pos hk', NBA.dictHasKey, List.any_map, List.any_eq_false]
    intro p hp
    have := hk p hp
    by_cases hpk : p.1 = k' <;> simp_all
  · rw [if_neg hk', NBA.dictHasKey, List.any_append]
    have h1 : d.any (fun p => decide (p.1 = k)) = false := List.any_eq_false.mpr hk
    have h2 : ([(k', (⟨row, r'⟩ : NBA.RowEntry))].any (fun p => decide (p.1 = k))) = false := by
      simp [hne]
    rw [h1, h2]
    rfl

theorem dictFind_addRow_new {d : NBA.TeamDataDict} (k : Option String) (row : String)
    (r' : Nat) (hk : NBA.dictHasKey d k = false) :
    NBA.dictFind (NBA.addRow d k row r') k = some ⟨row, r'⟩ := by
  have hcond : ¬ NBA.dictHasKey d k = true := by simp [hk]
  rw [NBA.addRow, if_neg hcond, NBA.dictFind, List.find?_append]
  have hnone : d.find? (fun p => decide (p.1 = k)) = none := by
    rw [List.find?_eq_none]
    intro p hp
    simp only [decide_eq_true_eq]
    intro he
    rw [NBA.dictHasKey] at hk
    have : d.any (fun p => decide (p.1 = k)) = true :=
      List.any_eq_true.mpr ⟨p, hp, by simp [he]⟩
    rw [hk] at this
    cases this
  rw [hnone]
  simp [List.find?_cons]

theorem find?_rank_map_update (d : NBA.TeamDataDict) (k k' : Option String) (row : String) :
    ((d.map (fun p => if p.1 = k' then
          (p.1, (⟨p.2.data ++ row, p.2.rank⟩ : NBA.RowEntry)) else p)).find?
        (fun p => decide (p.1 = k))).map (fun p => p.2.rank) =
      (d.find? (fun p => decide (p.1 = k))).map (fun p => p.2.rank) := by
  induction d with
  | nil => rfl
  | cons q d ih =>
    have hfst : ((if q.1 = k' then
        (q.1, (⟨q.2.data ++ row, q.2.rank⟩ : NBA.RowEntry)) else q)).1 = q.1 := by
      by_cases h : q.1 = k' <;> simp [h]
    by_cases hqk : q.1 = k
    · rw [List.map_cons,
        List.find?_cons_of_pos _ (by by_cases h : k = k' <;> simp [h, hqk]),
        List.find?_cons_of_pos _ (by simp [hqk])]
      by_cases h : q.1 = k' <;> simp [h]
    · rw [List.map_cons,
        List.find?_cons_of_neg _ (by simp [hfst, hqk]),
        List.find?_cons_of_neg _ (by simp [hqk])]
      exact ih

theorem dictFind_rank_addRow {d : NBA.TeamDataDict} (k k' : Option String) (row : String)
    (r' : Nat) (hk : NBA.dictHasKey d k = true) :
    (NBA.dictFind (NBA.addRow d k' row r') k).map NBA.RowEntry.rank =
      (NBA.dictFind d k).map NBA.RowEntry.rank := by
  rw [NBA.addRow]
  by_cases hk' : NBA.dictHasKey d k' = true
  · rw [if_pos hk']
    simp only [NBA.dictFind, Option.map_map]
    have := find?_rank_map_update d k k' row
    simpa [Function.comp] using this
  · rw [if_neg hk']
    simp only [NBA.dictFind, List.find?_append]
    rw [NBA.dictHasKey, List.any_eq_true] at hk
    obtain ⟨p, hp, hpred⟩ := hk
    have hsome : (d.find? (fun q => decide (q.1 = k))).isSome :=
      List.find?_isSome.mpr ⟨p, hp, hpred⟩
    cases hfind : d.find? (fun q => decide (q.1 = k)) with
    | none => rw [hfind] at hsome; simp at hsome
    | some q => simp [hfind]

theorem addStatsLoop_rank_present (pf : String → String → Option String)
    (rows : List String) (rank : Nat) (d : NBA.TeamDataDict) (k : Option String)
    (hk : NBA.dictHasKey d k = true) :
    (NBA.dictFind (NBA.addStatsLoop pf rows rank d) k).map NBA.RowEntry.rank =
      (NBA.dictFind d k).map NBA.RowEntry.rank := by
  induction rows generalizing rank d with
  | nil => rfl
  | cons row rows ih =>
    rw [NBA.addStatsLoop]
    rw [ih (rank + 1) _ (dictHasKey_addRow k _ row rank hk)]
    exact dictFind_rank_addRow k _ row rank hk

theorem addStatsLoop_rank_first (pf : String → String → Option String)
    (rows : List String) (rank : Nat) (d : NBA.TeamDataDict) (k : Option String) (i : Nat)
    (hk : NBA.dictHasKey d k = false)
    (hidx : rows.findIdx? (fun r => NBA.abbrOf pf r = k) = some i) :
    (NBA.dictFind (NBA.addStatsLoop pf rows rank d) k).map NBA.RowEntry.rank =
      some (rank + i) := by
  induction rows generalizing rank d i with
  | nil => simp at hidx
  | cons row rows ih =>
    rw [List.findIdx?_cons] at hidx
    by_cases hp : NBA.abbrOf pf row = k
    · rw [if_pos (by simp [hp])] at hidx
      cases hidx
      rw [NBA.addStatsLoop]
      have habbr : pf row "abbreviation" = NBA.abbrOf pf row := rfl
      rw [habbr, hp]
      have hnew := dictFind_addRow_new (d := d) k row rank hk
      rw [addStatsLoop_rank_present pf rows (rank + 1) _ k (hasKey_of_dictFind_some hnew)]
      rw [hnew]
      simp
    · rw [if_neg (by simp [hp]), List.findIdx?_succ] at hidx
      obtain ⟨i', hi', rfl⟩ := Option.map_eq_some'.mp hidx
      rw [NBA.addStatsLoop]
      have habbr : pf row "abbreviation" = NBA.abbrOf pf row := rfl
      rw [habbr]
      rw [ih (rank + 1) _ i' (dictHasKey_addRow_of_ne row rank hk hp) hi']
      congr 1
      omega

/-- C2: a team present in the offense table gets the rank of its first
offense row — `1 +` the number of rows before that row — and neither a
later offense row nor the whole opponent-table pass changes it; the
`rank` accessor of the constructed record returns that same value. -/
theorem claim_C2 (pf : String → String → Option String)
    (teams_list opp_teams_list : List String) (year : Option String)
    (k : Option String) (i : Nat)
    (hidx : teams_list.findIdx? (fun r => NBA.abbrOf pf r = k) = some i) :
    ∃ e, NBA.dictFind (NBA.addStatsData pf opp_teams_list
        (NBA.addStatsData pf teams_list [])) k = some e ∧
      e.rank = i + 1 ∧
      NBA.Team.ofData pf e.data e.rank year ∈
        NBA.retrieveAllTeams pf teams_list opp_teams_list year ∧
      (NBA.Team.ofData pf e.data e.rank year).rank = i + 1 := by
  have h1 := addStatsLoop_rank_first pf teams_list 1 [] k i rfl hidx
  obtain ⟨e1, he1, hr1⟩ := Option.map_eq_some'.mp h1
  have hk1 : NBA.dictHasKey (NBA.addStatsLoop pf teams_list 1 []) k = true :=
    hasKey_of_dictFind_some he1
  have h2 := addStatsLoop_rank_present pf opp_teams_list 1 _ k hk1
  rw [he1] at h2
  simp only [NBA.addStatsData]
  simp only [Option.map_some'] at h2
  obtain ⟨e, he, hr⟩ := Option.map_eq_some'.mp h2
  refine ⟨e, he, by omega, ?_, by simp [NBA.Team.rank, NBA.Team.ofData]; omega⟩
  simp only [NBA.dictFind, Option.map_eq_some'] at he
  obtain ⟨p, hp, hpe⟩ := he
  have hmem := List.mem_of_find?_eq_some hp
  simp only [NBA.retrieveAllTeams]
  have : NBA.Team.ofData pf e.data e.rank year =
      NBA.Team.ofData pf p.2.data p.2.rank year := by rw [hpe]
  rw [this]
  exact List.mem_map_of_mem _ hmem

/-- C2 witness: in a concrete offense table the team first appearing in
row 2 gets rank 2, untouched by its extra offense row and by the
opponent table. -/
theorem claim_C2_witness :
    ∃ e, NBA.dictFind (NBA.addStatsData NBA.samplePf ["DETz"]
        (NBA.addStatsData NBA.samplePf ["BOSx", "DETy"] [])) (some "DET") = some e ∧
      e.rank = 1 + 1 ∧
      NBA.Team.ofData NBA.samplePf e.data e.rank none ∈
        NBA.retrieveAllTeams NBA.samplePf ["BOSx", "DETy"] ["DETz"] none ∧
      (NBA.Team.ofData NBA.samplePf e.data e.rank none).rank = 1 + 1 :=
  claim_C2 NBA.samplePf ["BOSx", "DETy"] ["DETz"] none (some "DET") 1 (by decide)
